import Mathlib

/-!
Verification development for the agentkit repository.

The file shallowly embeds, in Lean 4, the parts of the code base that the
properties under scrutiny are about:

* the `findCommands` argument dispatcher of the `create-onchain-agent` CLI;
* the DefiLlama action provider: the `pruneGetProtocolResponse` /
  `processTimeSeriesArray` pair from
  `typescript/agentkit/src/action-providers/defillama/utils.ts`, and the three
  actions of `DefiLlamaActionProvider` from `defillama/types.ts`;
* the SSH remote-session connection manager (registry, session, host trust
  store, credential resolver and facade).  The Python implementation of that
  component (`ssh/connection.py`, `ssh/connection_pool.py`,
  `ssh_action_provider.py`) is not part of the source tree available here —
  only its README and test layout are — so the component is modelled from the
  design specification, as flagged on each definition.

JavaScript/TypeScript values are modelled by the `JVal` JSON tree; JS strings
by Lean `String` (operations such as `endsWith`, `includes`, `startsWith` are
modelled over the character list to keep them fully executable); JS exceptions
by `Except String`; the stable JS array sort by an insertion sort with the
source's comparator.
-/

/-- Model of JS `String.prototype.endsWith`: `q` is a suffix of `p`. -/
def strEndsWith (p q : String) : Bool :=
  List.isSuffixOf q.data p.data

/-- Model of JS `String.prototype.startsWith`: `q` is an initial segment of `p`. -/
def strStartsWith (p q : String) : Bool :=
  p.data.take q.data.length == q.data

/-- Model of JS `String.prototype.includes`: `q` occurs inside `p`. -/
def strIncludes (p q : String) : Bool :=
  decide (q.data <:+: p.data)

namespace CLI

/-- Result shape of `findCommands` in `create-onchain-agent`'s `cli.ts`:
`{ command: string | null; type: string | null }` (an absent following
argument — `undefined` — is also modelled by `none`). -/
structure CommandsResult where
  command : Option String
  type : Option String
deriving DecidableEq, Repr

/-- Embedding of `findCommands` (`create-onchain-agent` `cli.ts`): a direct
`"new"` token anywhere wins; otherwise the first `"generate"` token selects
the `generate` command with the next argument as its type. -/
def findCommands (args : List String) : CommandsResult :=
  if args.contains "new" then
    { command := some "new", type := none }
  else
    match args.findIdx? (fun a => a == "generate") with
    | none => { command := none, type := none }
    | some i => { command := some "generate", type := args[i + 1]? }

theorem findIdx?_append_generate (l r : List String) :
    "generate" ∉ l → ∀ i : Nat,
    List.findIdx? (fun a => a == "generate") (l ++ "generate" :: r) i =
      some (i + l.length) := by
  induction l with
  | nil => intro _ i; simp [List.findIdx?_cons]
  | cons x xs ih =>
    intro hl i
    have hx : x ≠ "generate" := by
      intro h
      exact hl (by simp [h])
    have hxs : "generate" ∉ xs := fun h => hl (List.mem_cons_of_mem _ h)
    simp only [List.cons_append, List.findIdx?_cons]
    rw [if_neg (by simp [hx]), ih hxs (i + 1)]
    have : i + 1 + xs.length = i + (x :: xs).length := by
      simp [List.length_cons]
      omega
    rw [this]

theorem findIdx?_generate (l r : List String) (hl : "generate" ∉ l) :
    List.findIdx? (fun a => a == "generate") (l ++ "generate" :: r) =
      some l.length := by
  rw [findIdx?_append_generate l r hl 0, Nat.zero_add]

/-- C10: `findCommands` returns command `"new"` with a null type whenever the
argument list contains `"new"` anywhere (even when `"generate"` also
appears); with no `"new"` but a `"generate"` present, it returns command
`"generate"` whose type is the element immediately after the first
`"generate"` (absent when `"generate"` is last); otherwise both command and
type are null. -/
theorem findCommands_c10 (args l r : List String) :
    (args.contains "new" = true →
      findCommands args = { command := some "new", type := none })
    ∧ (args.contains "new" = false → args = l ++ "generate" :: r →
        "generate" ∉ l →
      findCommands args = { command := some "generate", type := r.head? })
    ∧ (args.contains "new" = false → "generate" ∉ args →
      findCommands args = { command := none, type := none }) := by
  refine ⟨fun hnew => ?_, fun hnew heq hl => ?_, fun hnew hg => ?_⟩
  · rw [findCommands, if_pos hnew]
  · subst heq
    rw [findCommands, if_neg (by simp_all)]
    rw [findIdx?_generate l r hl]
    have hlen : l.length ≤ l.length + 1 := Nat.le_succ _
    show CommandsResult.mk (some "generate") ((l ++ "generate" :: r)[l.length + 1]?) =
      CommandsResult.mk (some "generate") r.head?
    rw [List.getElem?_append_right hlen]
    simp [List.head?_eq_getElem?]
  · rw [findCommands, if_neg (by simp_all)]
    have : List.findIdx? (fun a => a == "generate") args = none := by
      rw [List.findIdx?_eq_none_iff]
      intro x hx
      simp only [beq_eq_false_iff_ne, ne_eq]
      intro h
      exact hg (h ▸ hx)
    rw [this]

theorem findCommands_c10_witness :
    findCommands ["new", "generate", "agent"] =
      { command := some "new", type := none }
    ∧ findCommands ["node", "cli.js", "generate", "agent"] =
      { command := some "generate", type := some "agent" }
    ∧ findCommands ["node", "cli.js", "generate"] =
      { command := some "generate", type := none }
    ∧ findCommands ["node", "cli.js"] = { command := none, type := none } :=
  ⟨(findCommands_c10 ["new", "generate", "agent"] [] []).1 (by decide),
   (findCommands_c10 ["node", "cli.js", "generate", "agent"]
      ["node", "cli.js"] ["agent"]).2.1 (by decide) rfl (by decide),
   (findCommands_c10 ["node", "cli.js", "generate"]
      ["node", "cli.js"] []).2.1 (by decide) rfl (by decide),
   (findCommands_c10 ["node", "cli.js"] [] []).2.2 (by decide) (by decide)⟩

end CLI

namespace DefiLlama

/-- JSON-like value tree: the model of the JS values that
`pruneGetProtocolResponse` (`defillama/utils.ts`) traverses. -/
inductive JVal where
  | null : JVal
  | bool : Bool → JVal
  | num : Int → JVal
  | str : String → JVal
  | arr : List JVal → JVal
  | obj : List (String × JVal) → JVal

/-- JS `value && typeof value === "object"`: true exactly for arrays and
(non-null) objects. -/
def isObjLike : JVal → Bool
  | .arr _ => true
  | .obj _ => true
  | _ => false

/-- JS property read `obj[key]` on an object literal (first binding wins;
JS objects have unique keys). -/
def getField : List (String × JVal) → String → Option JVal
  | [], _ => none
  | (k1, v) :: fs, k => if k1 == k then some v else getField fs k

/-- The numeric `date` property of an element, when the element is an object
carrying one (`typeof x.date === "number"` in the sort comparator). -/
def dateOf? : JVal → Option Int
  | .obj fs =>
    match getField fs "date" with
    | some (.num d) => some d
    | _ => none
  | .null => none
  | .bool _ => none
  | .num _ => none
  | .str _ => none
  | .arr _ => none

/-- JS `typeof x === "object" && x !== null && "date" in x`: the guard
`processTimeSeriesArray` checks on the first array element before sorting. -/
def hasDateProp : JVal → Bool
  | .obj fs => fs.any (fun kv => kv.1 == "date")
  | _ => false

/-- The sort comparator of `processTimeSeriesArray`: `b.date - a.date` when
both elements are objects with numeric `date` fields, `0` otherwise. -/
def jsCompareDates (a b : JVal) : Int :=
  match dateOf? a, dateOf? b with
  | some da, some db => db - da
  | _, _ => 0

/-- `a` may precede `b` under the comparator (comparator value `≤ 0`); the
stable JS sort orders by this relation. -/
def sortLe (a b : JVal) : Bool := jsCompareDates a b ≤ 0

/-- Stable insertion step for the model of `Array.prototype.sort`. -/
def insertSorted (x : JVal) : List JVal → List JVal
  | [] => [x]
  | y :: ys => if sortLe x y then x :: y :: ys else y :: insertSorted x ys

/-- Model of the stable JS `array.sort((a, b) => b.date - a.date)` used in
`processTimeSeriesArray` (stable sort by descending numeric date). -/
def jsSortByDate : List JVal → List JVal
  | [] => []
  | x :: xs => insertSorted x (jsSortByDate xs)

/-- Embedding of `processTimeSeriesArray` (`defillama/utils.ts` lines 10-35):
arrays not longer than `maxEntries` are returned unchanged; longer ones are
sorted newest-first — if their first element is an object with a `date`
property — and cut to `maxEntries` entries. -/
def processTimeSeriesArray (maxEntries : Nat) (array : List JVal) : List JVal :=
  if array.length ≤ maxEntries then array
  else
    let sorted :=
      match array with
      | [] => array
      | x :: _ => if hasDateProp x then jsSortByDate array else array
    sorted.take maxEntries

/-- The `timeSeriesArrayPaths` constant of `pruneGetProtocolResponse`. -/
def timeSeriesArrayPaths : List String := ["tvl", "tokens", "tokensInUsd"]

/-- The path test of `pruneGetProtocolResponse`:
`currentPath === path || currentPath.endsWith("." + path)` for one of the
three time-series keys. -/
def isTimeSeriesPath (currentPath : String) : Bool :=
  timeSeriesArrayPaths.any
    (fun path => currentPath == path || strEndsWith currentPath ("." ++ path))

/-- Path extension for an object key:
`currentPath ? currentPath + "." + key : key`. -/
def extendKey (currentPath key : String) : String :=
  if currentPath == "" then key else currentPath ++ "." ++ key

/-- Path extension for an array index: `currentPath + "[" + i + "]"`. -/
def extendIdx (currentPath : String) (i : Nat) : String :=
  currentPath ++ "[" ++ toString i ++ "]"

mutual
/-- Embedding of the recursive `processNestedObject` closure of
`pruneGetProtocolResponse` (`defillama/utils.ts` lines 57-88): a time-series
array is handed to `processTimeSeriesArray` (and not recursed into); any
other array is recursed into element-wise; an object is recursed into on its
object-valued fields; everything else is returned unchanged. -/
def processNestedObject (maxEntries : Nat) : JVal → String → JVal
  | .arr elems, currentPath =>
    if isTimeSeriesPath currentPath then
      .arr (processTimeSeriesArray maxEntries elems)
    else
      .arr (processElems maxEntries currentPath 0 elems)
  | .obj fields, currentPath => .obj (processFields maxEntries currentPath fields)
  | .null, _ => .null
  | .bool b, _ => .bool b
  | .num x, _ => .num x
  | .str t, _ => .str t

/-- The `for (let i = 0; i < obj.length; i++)` loop of `processNestedObject`,
carrying the running index used in the path string. -/
def processElems (maxEntries : Nat) (currentPath : String) : Nat → List JVal → List JVal
  | _, [] => []
  | i, x :: xs =>
    processNestedObject maxEntries x (extendIdx currentPath i) ::
      processElems maxEntries currentPath (i + 1) xs

/-- The `for (const key of Object.keys(record))` loop of
`processNestedObject`: object-valued fields are recursed into, others kept. -/
def processFields (maxEntries : Nat) (currentPath : String) :
    List (String × JVal) → List (String × JVal)
  | [] => []
  | (key, value) :: fs =>
    (key,
      if isObjLike value then processNestedObject maxEntries value (extendKey currentPath key)
      else value) :: processFields maxEntries currentPath fs
end

/-- The body of the `chainTvls` special-handling loop: for one chain's data
object, each of the three time-series keys holding an array is pruned. -/
def processChainData (maxEntries : Nat) : JVal → JVal
  | .obj chainFields =>
    .obj (chainFields.map (fun kv =>
      if timeSeriesArrayPaths.contains kv.1 then
        match kv.2 with
        | .arr xs => (kv.1, .arr (processTimeSeriesArray maxEntries xs))
        | _ => kv
      else kv))
  | v => v

/-- The `if (result.chainTvls) { for (const chain of Object.keys(...)) ... }`
special handling of `pruneGetProtocolResponse` (lines 91-101), run before the
general traversal.  A falsy or non-object `chainTvls` value is left alone. -/
def chainTvlsStep (maxEntries : Nat) : JVal → JVal
  | .obj fields =>
    .obj (fields.map (fun kv =>
      if kv.1 == "chainTvls" then
        (kv.1,
          match kv.2 with
          | .obj chains =>
            JVal.obj (chains.map (fun c => (c.1, processChainData maxEntries c.2)))
          | .arr xs => JVal.arr (xs.map (processChainData maxEntries))
          | v => v)
      else kv))
  | v => v

/-- Embedding of `pruneGetProtocolResponse` (`defillama/utils.ts` lines
45-106): null in, null out; otherwise the chainTvls special handling runs
first and the general traversal second (the source's default for
`maxEntries` is 5). -/
def pruneGetProtocolResponse (data : Option JVal) (maxEntries : Nat) : Option JVal :=
  match data with
  | none => none
  | some v => some (processNestedObject maxEntries (chainTvlsStep maxEntries v) "")

/-- One step of a JSON access path: an object key or an array index. -/
inductive PathElem where
  | key : String → PathElem
  | idx : Nat → PathElem

/-- The path-string fragment the traversal appends for one step. -/
def stepPath (currentPath : String) : PathElem → String
  | .key k => extendKey currentPath k
  | .idx i => extendIdx currentPath i

/-- The `currentPath` string the traversal would carry after following `p`
starting from the string `s`. -/
def pathStringFrom (s : String) (p : List PathElem) : String :=
  p.foldl stepPath s

/-- The `currentPath` string for a path from the root. -/
def pathString (p : List PathElem) : String := pathStringFrom "" p

/-- Structural access: the value sitting at path `p` inside a JSON tree. -/
def getPath : JVal → List PathElem → Option JVal
  | v, [] => some v
  | .obj fs, .key k :: p =>
    match getField fs k with
    | some w => getPath w p
    | none => none
  | .arr xs, .idx i :: p =>
    match xs[i]? with
    | some w => getPath w p
    | none => none
  | .obj _, .idx _ :: _ => none
  | .arr _, .key _ :: _ => none
  | .null, _ :: _ => none
  | .bool _, _ :: _ => none
  | .num _, _ :: _ => none
  | .str _, _ :: _ => none

end DefiLlama

namespace DefiLlama

theorem sizeOf_pos (v : JVal) : 0 < sizeOf v := by
  cases v <;> simp_arith

theorem getField_exists_mem (fs : List (String × JVal)) (k : String) (w : JVal)
    (h : getField fs k = some w) : ∃ k1, (k1, w) ∈ fs := by
  induction fs with
  | nil => simp [getField] at h
  | cons kv fs ih =>
    obtain ⟨k1, v⟩ := kv
    by_cases hk : (k1 == k) = true
    · rw [getField, if_pos hk] at h
      exact ⟨k1, by simp [Option.some.inj h]⟩
    · rw [getField, if_neg hk] at h
      obtain ⟨k2, hmem⟩ := ih h
      exact ⟨k2, List.mem_cons_of_mem _ hmem⟩

theorem getField_any_key (fs : List (String × JVal)) (k : String) (w : JVal)
    (h : getField fs k = some w) : fs.any (fun kv => kv.1 == k) = true := by
  induction fs with
  | nil => simp [getField] at h
  | cons kv fs ih =>
    obtain ⟨k1, v⟩ := kv
    by_cases hk : (k1 == k) = true
    · simp [hk]
    · rw [getField, if_neg hk] at h
      simp [List.any_cons, ih h]

theorem sizeOf_lt_of_mem_arr {z : JVal} {zs : List JVal} (h : z ∈ zs) :
    sizeOf z < sizeOf (JVal.arr zs) := by
  have h1 := List.sizeOf_lt_of_mem h
  have h2 : sizeOf (JVal.arr zs) = 1 + sizeOf zs := by simp_arith
  omega

theorem sizeOf_lt_of_getField {fs : List (String × JVal)} {k : String} {w : JVal}
    (h : getField fs k = some w) : sizeOf w < sizeOf (JVal.obj fs) := by
  obtain ⟨k1, hmem⟩ := getField_exists_mem fs k w h
  have h1 := List.sizeOf_lt_of_mem hmem
  have h2 : sizeOf (k1, w) = 1 + sizeOf k1 + sizeOf w := by simp_arith
  have h3 : sizeOf (JVal.obj fs) = 1 + sizeOf fs := by simp_arith
  omega

theorem sizeOf_lt_of_getElem? {zs : List JVal} {i : Nat} {z : JVal}
    (h : zs[i]? = some z) : sizeOf z < sizeOf (JVal.arr zs) :=
  sizeOf_lt_of_mem_arr (List.getElem?_mem h)

theorem insertSorted_length (x : JVal) (l : List JVal) :
    (insertSorted x l).length = l.length + 1 := by
  induction l with
  | nil => rfl
  | cons y ys ih =>
    rw [insertSorted]
    split
    · simp
    · simp [ih]

theorem jsSortByDate_length (l : List JVal) : (jsSortByDate l).length = l.length := by
  induction l with
  | nil => rfl
  | cons x xs ih => rw [jsSortByDate, insertSorted_length, ih, List.length_cons]

theorem processTimeSeriesArray_length_le (m : Nat) (xs : List JVal) :
    (processTimeSeriesArray m xs).length ≤ m := by
  rw [processTimeSeriesArray.eq_def]
  split
  · assumption
  · dsimp only
    exact List.length_take_le _ _

theorem processElems_getElem? (m : Nat) (s : String) (xs : List JVal) :
    ∀ i j : Nat, (processElems m s i xs)[j]? =
      (xs[j]?).map (fun w => processNestedObject m w (extendIdx s (i + j))) := by
  induction xs with
  | nil => intro i j; simp [processElems]
  | cons x xs ih =>
    intro i j
    cases j with
    | zero => simp [processElems]
    | succ j =>
      have h : i + 1 + j = i + (j + 1) := by omega
      rw [processElems]
      simp only [List.getElem?_cons_succ, ih (i + 1) j, h]

theorem getPath_processedArr_some (m : Nat) (s : String) (elems : List JVal) (i : Nat)
    (p : List PathElem) (w : JVal) (h : elems[i]? = some w) :
    getPath (.arr (processElems m s 0 elems)) (.idx i :: p) =
      getPath (processNestedObject m w (extendIdx s i)) p := by
  rw [getPath, processElems_getElem? m s elems 0 i, Nat.zero_add, h]
  rfl

theorem getPath_processedArr_none (m : Nat) (s : String) (elems : List JVal) (i : Nat)
    (p : List PathElem) (h : elems[i]? = none) :
    getPath (.arr (processElems m s 0 elems)) (.idx i :: p) = none := by
  rw [getPath, processElems_getElem? m s elems 0 i, Nat.zero_add, h]
  rfl

theorem getField_processFields (m : Nat) (s : String) (fs : List (String × JVal))
    (k : String) :
    getField (processFields m s fs) k =
      (getField fs k).map
        (fun w => if isObjLike w then processNestedObject m w (extendKey s k) else w) := by
  induction fs with
  | nil => simp [processFields, getField]
  | cons kv fs ih =>
    obtain ⟨k1, v⟩ := kv
    rw [processFields]
    by_cases hk : (k1 == k) = true
    · have hkk : k1 = k := by simpa using hk
      subst hkk
      rw [getField, if_pos hk, getField, if_pos hk]
      rfl
    · rw [getField, if_neg hk, getField, if_neg hk, ih]

theorem getPath_processedObj_some (m : Nat) (s : String) (fields : List (String × JVal))
    (k : String) (p : List PathElem) (w : JVal) (h : getField fields k = some w) :
    getPath (.obj (processFields m s fields)) (.key k :: p) =
      getPath (if isObjLike w then processNestedObject m w (extendKey s k) else w) p := by
  rw [getPath, getField_processFields, h]
  rfl

theorem getPath_processedObj_none (m : Nat) (s : String) (fields : List (String × JVal))
    (k : String) (p : List PathElem) (h : getField fields k = none) :
    getPath (.obj (processFields m s fields)) (.key k :: p) = none := by
  rw [getPath, getField_processFields, h]
  rfl

end DefiLlama

namespace DefiLlama

theorem getPath_scalar_cons (v : JVal) (hv : isObjLike v = false) (e : PathElem)
    (p : List PathElem) : getPath v (e :: p) = none := by
  cases v <;> cases e <;> simp [isObjLike, getPath] at hv ⊢

/-- Key invariant of the traversal: any array that the pruned output exposes
at a time-series path, such that no strictly shorter stage of that path
already holds an array at a time-series path, has been cut to at most
`maxEntries` entries. -/
theorem pno_bounded :
    ∀ (n m : Nat) (v : JVal), sizeOf v ≤ n →
    ∀ (s : String) (p : List PathElem) (xs : List JVal),
    getPath (processNestedObject m v s) p = some (.arr xs) →
    isTimeSeriesPath (pathStringFrom s p) = true →
    (∀ q1 q2, p = q1 ++ q2 → q2 ≠ [] → ∀ ys,
       getPath (processNestedObject m v s) q1 = some (.arr ys) →
       isTimeSeriesPath (pathStringFrom s q1) = false) →
    xs.length ≤ m := by
  intro n
  induction n with
  | zero =>
    intro m v hv
    exact absurd hv (by have := sizeOf_pos v; omega)
  | succ n ih =>
    intro m v hv s p xs hget hts hfree
    cases v with
    | null =>
      cases p with
      | nil => simp only [processNestedObject, getPath] at hget; exact JVal.noConfusion (Option.some.inj hget)
      | cons e p2 =>
        rw [processNestedObject, getPath] at hget
        exact Option.noConfusion hget
    | bool b =>
      cases p with
      | nil => simp only [processNestedObject, getPath] at hget; exact JVal.noConfusion (Option.some.inj hget)
      | cons e p2 =>
        rw [processNestedObject, getPath] at hget
        exact Option.noConfusion hget
    | num x =>
      cases p with
      | nil => simp only [processNestedObject, getPath] at hget; exact JVal.noConfusion (Option.some.inj hget)
      | cons e p2 =>
        rw [processNestedObject, getPath] at hget
        exact Option.noConfusion hget
    | str t =>
      cases p with
      | nil => simp only [processNestedObject, getPath] at hget; exact JVal.noConfusion (Option.some.inj hget)
      | cons e p2 =>
        rw [processNestedObject, getPath] at hget
        exact Option.noConfusion hget
    | arr elems =>
      by_cases hpath : isTimeSeriesPath s = true
      · cases p with
        | nil =>
          rw [processNestedObject, if_pos hpath, getPath] at hget
          have hx : processTimeSeriesArray m elems = xs := by
            injection Option.some.inj hget
          rw [← hx]
          exact processTimeSeriesArray_length_le m elems
        | cons e p2 =>
          have h0 : getPath (processNestedObject m (.arr elems) s) [] =
              some (.arr (processTimeSeriesArray m elems)) := by
            rw [processNestedObject, if_pos hpath, getPath]
          have hcontra := hfree [] (e :: p2) rfl (by simp) _ h0
          simp only [pathStringFrom, List.foldl_nil] at hcontra
          rw [hpath] at hcontra
          exact Bool.noConfusion hcontra
      · cases p with
        | nil =>
          simp only [pathStringFrom, List.foldl_nil] at hts
          exact absurd hts hpath
        | cons e p2 =>
          cases e with
          | key k =>
            rw [processNestedObject, if_neg hpath] at hget
            simp only [getPath] at hget
            exact Option.noConfusion hget
          | idx i =>
            cases hei : elems[i]? with
            | none =>
              rw [processNestedObject, if_neg hpath,
                getPath_processedArr_none m s elems i p2 hei] at hget
              exact Option.noConfusion hget
            | some w =>
              rw [processNestedObject, if_neg hpath,
                getPath_processedArr_some m s elems i p2 w hei] at hget
              have hw : sizeOf w ≤ n := by
                have h1 := sizeOf_lt_of_getElem? hei
                omega
              refine ih m w hw (extendIdx s i) p2 xs hget hts ?_
              intro q1 q2 hsplit hne ys hq
              have hq2 : getPath (processNestedObject m (.arr elems) s) (.idx i :: q1) =
                  some (.arr ys) := by
                rw [processNestedObject, if_neg hpath,
                  getPath_processedArr_some m s elems i q1 w hei]
                exact hq
              exact hfree (.idx i :: q1) q2 (by rw [hsplit, List.cons_append]) hne ys hq2
    | obj fields =>
      cases p with
      | nil =>
        rw [processNestedObject, getPath] at hget
        exact JVal.noConfusion (Option.some.inj hget)
      | cons e p2 =>
        cases e with
        | idx i =>
          rw [processNestedObject] at hget
          simp only [getPath] at hget
          exact Option.noConfusion hget
        | key k =>
          cases hgf : getField fields k with
          | none =>
            rw [processNestedObject, getPath_processedObj_none m s fields k p2 hgf] at hget
            exact Option.noConfusion hget
          | some w =>
            rw [processNestedObject, getPath_processedObj_some m s fields k p2 w hgf] at hget
            by_cases hol : isObjLike w = true
            · rw [if_pos hol] at hget
              have hw : sizeOf w ≤ n := by
                have h1 := sizeOf_lt_of_getField hgf
                omega
              refine ih m w hw (extendKey s k) p2 xs hget hts ?_
              intro q1 q2 hsplit hne ys hq
              have hq2 : getPath (processNestedObject m (.obj fields) s) (.key k :: q1) =
                  some (.arr ys) := by
                rw [processNestedObject, getPath_processedObj_some m s fields k q1 w hgf,
                  if_pos hol]
                exact hq
              exact hfree (.key k :: q1) q2 (by rw [hsplit, List.cons_append]) hne ys hq2
            · rw [if_neg hol] at hget
              have hw0 : isObjLike w = false := by simpa using hol
              cases p2 with
              | nil =>
                rw [getPath] at hget
                have hwx := Option.some.inj hget
                rw [hwx] at hw0
                simp [isObjLike] at hw0
              | cons e2 p3 =>
                rw [getPath_scalar_cons w hw0 e2 p3] at hget
                exact Option.noConfusion hget

end DefiLlama

namespace DefiLlama

theorem insertSorted_perm (x : JVal) (l : List JVal) :
    (insertSorted x l).Perm (x :: l) := by
  induction l with
  | nil => exact List.Perm.refl _
  | cons y ys ih =>
    rw [insertSorted]
    split
    · exact List.Perm.refl _
    · exact (ih.cons y).trans (List.Perm.swap x y ys)

theorem jsSortByDate_perm (l : List JVal) : (jsSortByDate l).Perm l := by
  induction l with
  | nil => exact List.Perm.refl _
  | cons x xs ih => exact (insertSorted_perm x (jsSortByDate xs)).trans (ih.cons x)

theorem sortLe_iff_of_dates {a b : JVal} {da db : Int}
    (ha : dateOf? a = some da) (hb : dateOf? b = some db) :
    sortLe a b = true ↔ db ≤ da := by
  simp only [sortLe, jsCompareDates, ha, hb]
  simp [sub_nonpos]

theorem pairwise_insertSorted (x : JVal) (l : List JVal)
    (hx : (dateOf? x).isSome) (hl : ∀ y ∈ l, (dateOf? y).isSome)
    (h : l.Pairwise (fun a b => sortLe a b = true)) :
    (insertSorted x l).Pairwise (fun a b => sortLe a b = true) := by
  induction l with
  | nil => simp [insertSorted]
  | cons y ys ih =>
    rw [insertSorted]
    rcases List.pairwise_cons.mp h with ⟨hy, hys⟩
    by_cases hxy : sortLe x y = true
    · rw [if_pos hxy]
      refine List.pairwise_cons.mpr ⟨?_, h⟩
      intro z hz
      rcases List.mem_cons.mp hz with rfl | hz2
      · exact hxy
      · obtain ⟨dx, hdx⟩ := Option.isSome_iff_exists.mp hx
        obtain ⟨dy, hdy⟩ := Option.isSome_iff_exists.mp (hl y (by simp))
        obtain ⟨dz, hdz⟩ := Option.isSome_iff_exists.mp (hl z (by simp [hz2]))
        have h1 := (sortLe_iff_of_dates hdx hdy).mp hxy
        have h2 := (sortLe_iff_of_dates hdy hdz).mp (hy z hz2)
        exact (sortLe_iff_of_dates hdx hdz).mpr (le_trans h2 h1)
    · rw [if_neg hxy]
      refine List.pairwise_cons.mpr
        ⟨?_, ih (fun z hz => hl z (by simp [hz])) hys⟩
      intro z hz
      have hz2 : z = x ∨ z ∈ ys := by
        have hmem := (insertSorted_perm x ys).mem_iff.mp hz
        simpa using hmem
      rcases hz2 with rfl | hz2
      · obtain ⟨dx, hdx⟩ := Option.isSome_iff_exists.mp hx
        obtain ⟨dy, hdy⟩ := Option.isSome_iff_exists.mp (hl y (by simp))
        have hnle : ¬ dy ≤ dx := fun hc => hxy ((sortLe_iff_of_dates hdx hdy).mpr hc)
        exact (sortLe_iff_of_dates hdy hdx).mpr (le_of_not_le hnle)
      · exact hy z hz2

theorem pairwise_jsSortByDate (l : List JVal)
    (hl : ∀ y ∈ l, (dateOf? y).isSome) :
    (jsSortByDate l).Pairwise (fun a b => sortLe a b = true) := by
  induction l with
  | nil => simp [jsSortByDate]
  | cons x xs ih =>
    rw [jsSortByDate]
    refine pairwise_insertSorted x (jsSortByDate xs) (hl x (by simp)) ?_ ?_
    · intro y hy
      exact hl y (by simp [(jsSortByDate_perm xs).mem_iff.mp hy])
    · exact ih (fun y hy => hl y (by simp [hy]))

theorem hasDateProp_of_dateOf? {x : JVal} {d : Int} (h : dateOf? x = some d) :
    hasDateProp x = true := by
  cases x with
  | obj fs =>
    cases hgf : getField fs "date" with
    | none => rw [dateOf?, hgf] at h; exact Option.noConfusion h
    | some w => exact getField_any_key fs "date" w hgf
  | null => rw [dateOf?] at h; exact Option.noConfusion h
  | bool b => rw [dateOf?] at h; exact Option.noConfusion h
  | num n => rw [dateOf?] at h; exact Option.noConfusion h
  | str t => rw [dateOf?] at h; exact Option.noConfusion h
  | arr a => rw [dateOf?] at h; exact Option.noConfusion h

theorem processTimeSeriesArray_short (m : Nat) (xs : List JVal)
    (h : xs.length ≤ m) : processTimeSeriesArray m xs = xs := by
  rw [processTimeSeriesArray.eq_def, if_pos h]

theorem processTimeSeriesArray_sorted_cut (m : Nat) (xs : List JVal)
    (hlong : m < xs.length) (hdates : ∀ x ∈ xs, (dateOf? x).isSome) :
    ∃ ys, xs.Perm ys ∧
      ys.Pairwise (fun a b => ∀ da db,
        dateOf? a = some da → dateOf? b = some db → db ≤ da) ∧
      processTimeSeriesArray m xs = ys.take m := by
  refine ⟨jsSortByDate xs, (jsSortByDate_perm xs).symm, ?_, ?_⟩
  · refine List.Pairwise.imp ?_ (pairwise_jsSortByDate xs hdates)
    intro a b hab da db hda hdb
    exact (sortLe_iff_of_dates hda hdb).mp hab
  · rw [processTimeSeriesArray.eq_def, if_neg (by omega)]
    cases xs with
    | nil => simp at hlong
    | cons x xt =>
      obtain ⟨dx, hdx⟩ := Option.isSome_iff_exists.mp (hdates x (by simp))
      dsimp only
      rw [if_pos (hasDateProp_of_dateOf? hdx)]

theorem prune_none_iff (d : Option JVal) (m : Nat) :
    pruneGetProtocolResponse d m = none ↔ d = none := by
  cases d <;> simp [pruneGetProtocolResponse]

end DefiLlama

namespace DefiLlama

/-- C8 (amended): `pruneGetProtocolResponse` returns null exactly on null
input; in the result, every time-series array reached at a path whose final
key is `tvl`, `tokens` or `tokensInUsd` — provided no strictly shorter stage
of that path already holds an array at such a path, since the traversal does
not descend into a pruned time-series array — has at most `maxEntries`
entries; an array not longer than `maxEntries` is returned unchanged by
`processTimeSeriesArray`; a longer one whose elements all carry numeric
`date` fields is cut to the `maxEntries` entries of largest date, newest
first. -/
theorem prune_protocol_c8 :
    (∀ (d : Option JVal) (m : Nat),
      pruneGetProtocolResponse d m = none ↔ d = none)
    ∧ (∀ (v : JVal) (m : Nat) (r : JVal) (p : List PathElem) (xs : List JVal),
        pruneGetProtocolResponse (some v) m = some r →
        getPath r p = some (.arr xs) →
        isTimeSeriesPath (pathString p) = true →
        (∀ q1 q2, p = q1 ++ q2 → q2 ≠ [] → ∀ ys,
          getPath r q1 = some (.arr ys) →
          isTimeSeriesPath (pathString q1) = false) →
        xs.length ≤ m)
    ∧ (∀ (m : Nat) (xs : List JVal), xs.length ≤ m →
        processTimeSeriesArray m xs = xs)
    ∧ (∀ (m : Nat) (xs : List JVal), m < xs.length →
        (∀ x ∈ xs, (dateOf? x).isSome) →
        ∃ ys, xs.Perm ys ∧
          ys.Pairwise (fun a b => ∀ da db,
            dateOf? a = some da → dateOf? b = some db → db ≤ da) ∧
          processTimeSeriesArray m xs = ys.take m) := by
  refine ⟨prune_none_iff, ?_, processTimeSeriesArray_short,
    processTimeSeriesArray_sorted_cut⟩
  intro v m r p xs hpr hget hts hfree
  have hr : r = processNestedObject m (chainTvlsStep m v) "" := by
    rw [pruneGetProtocolResponse] at hpr
    exact (Option.some.inj hpr).symm
  subst hr
  exact pno_bounded (sizeOf (chainTvlsStep m v)) m (chainTvlsStep m v) le_rfl
    "" p xs hget hts hfree

/-- Ten date-free entries for the nested `tokens` array of the C8
counterexample. -/
def longTokens : List JVal :=
  [.num 0, .num 1, .num 2, .num 3, .num 4, .num 5, .num 6, .num 7, .num 8,
   .num 9]

/-- A protocol response whose top-level `tvl` time-series array (one entry,
so left as is) contains an element carrying its own `tokens` array of ten
entries; the traversal never reaches the inner array. -/
def c8Input : JVal := .obj [("tvl", .arr [.obj [("tokens", .arr longTokens)]])]

/-- C8 counterexample: in the pruned output for `c8Input` with the default
`maxEntries = 5`, the array sitting at the path `tvl[0].tokens` — whose final
key is `tokens`, a time-series key — still has 10 > 5 entries, because it is
nested inside the `tvl` time-series array and the pruning never descends into
a time-series array. -/
theorem prune_protocol_c8_counterexample :
    isTimeSeriesPath (pathString [.key "tvl", .idx 0, .key "tokens"]) = true
    ∧ (pruneGetProtocolResponse (some c8Input) 5).bind
        (fun r => getPath r [.key "tvl", .idx 0, .key "tokens"]) =
          some (.arr longTokens)
    ∧ ¬ longTokens.length ≤ 5 :=
  ⟨by decide, rfl, by decide⟩

/-- A protocol response with a single flat `tokens` time-series array of
seven date-free entries. -/
def c8WitnessInput : JVal :=
  .obj [("tokens",
    .arr [.num 0, .num 1, .num 2, .num 3, .num 4, .num 5, .num 6])]

theorem prune_protocol_c8_witness :
    ([JVal.num 0, JVal.num 1, JVal.num 2, JVal.num 3, JVal.num 4].length ≤ 5)
    ∧ processTimeSeriesArray 7 [JVal.num 0] = [JVal.num 0]
    ∧ (∃ ys,
        [JVal.obj [("date", JVal.num 1)], JVal.obj [("date", JVal.num 3)],
          JVal.obj [("date", JVal.num 2)]].Perm ys ∧
        ys.Pairwise (fun a b => ∀ da db,
          dateOf? a = some da → dateOf? b = some db → db ≤ da) ∧
        processTimeSeriesArray 2
          [JVal.obj [("date", JVal.num 1)], JVal.obj [("date", JVal.num 3)],
            JVal.obj [("date", JVal.num 2)]] = ys.take 2) := by
  refine ⟨?_, ?_, ?_⟩
  · refine prune_protocol_c8.2.1 c8WitnessInput 5 _ [.key "tokens"] _ rfl rfl
      (by decide) ?_
    intro q1 q2 hsplit hne ys hq
    cases q1 with
    | nil => exact absurd (Option.some.inj hq) (fun hh => JVal.noConfusion hh)
    | cons a t =>
      rw [List.cons_append] at hsplit
      injection hsplit with h1 h2
      exact absurd (List.append_eq_nil.mp h2.symm).2 hne
  · exact prune_protocol_c8.2.2.1 7 [JVal.num 0] (by decide)
  · exact prune_protocol_c8.2.2.2 2 _ (by decide) (by decide)

end DefiLlama

namespace DefiLlama

/-- The `fetch` response as the actions observe it: the `ok` flag, the HTTP
status, and the parsed JSON body that `response.json()` yields. -/
structure FetchResponse where
  ok : Bool
  status : Nat
  body : JVal

/-- Outcome of one `await fetch(url)`: the promise rejects (carrying the
display string of the thrown error) or resolves to a response. -/
inductive FetchOutcome where
  | rejects : String → FetchOutcome
  | resolves : FetchResponse → FetchOutcome

/-- The ambient `fetch` effect, an oracle keyed by the request URL. -/
def FetchOracle := String → FetchOutcome

/-- JS `try { body } catch (error) { return handler(error) }` where the
caught error is interpolated into a string. -/
def tryCatch (body : Except String String) (handler : String → String) : String :=
  match body with
  | .ok s => s
  | .error e => handler e

/-- `await fetch(url)` inside a `try`: a rejected promise becomes a thrown
error. -/
def awaitFetch (f : FetchOutcome) : Except String FetchResponse :=
  match f with
  | .rejects msg => .error msg
  | .resolves r => .ok r

mutual
/-- Model of `JSON.stringify(data, null, 2)` (pretty-printing elided; the
theorems never inspect the success payload). -/
def jsonStringify : JVal → String
  | .null => "null"
  | .bool true => "true"
  | .bool false => "false"
  | .num n => toString n
  | .str s => "\"" ++ s ++ "\""
  | .arr xs => "[" ++ jsonStringifyElems xs ++ "]"
  | .obj fs => "\x7b" ++ jsonStringifyFields fs ++ "\x7d"

/-- Comma-separated serialization of array elements. -/
def jsonStringifyElems : List JVal → String
  | [] => ""
  | [x] => jsonStringify x
  | x :: xs => jsonStringify x ++ "," ++ jsonStringifyElems xs

/-- Comma-separated serialization of object fields. -/
def jsonStringifyFields : List (String × JVal) → String
  | [] => ""
  | [(k, v)] => "\"" ++ k ++ "\":" ++ jsonStringify v
  | (k, v) :: fs =>
    "\"" ++ k ++ "\":" ++ jsonStringify v ++ "," ++ jsonStringifyFields fs
end

/-- The provider's `pricesUrl` constant. -/
def pricesUrl : String := "https://coins.llama.fi"

/-- The provider's `baseUrl` constant. -/
def baseUrl : String := "https://api.llama.fi"

/-- Model of `new URLSearchParams({ coins }).toString()` with the optional
`searchWidth` appended (percent-encoding of values elided). -/
def tokenPricesParams (tokens : List String) (searchWidth : Option String) : String :=
  match searchWidth with
  | none => "coins=" ++ String.intercalate "," tokens
  | some w => "coins=" ++ String.intercalate "," tokens ++ "&searchWidth=" ++ w

/-- The URL `getTokenPrices` fetches. -/
def tokenPricesRequestUrl (tokens : List String) (searchWidth : Option String) :
    String :=
  pricesUrl ++ "/prices/current/" ++ tokenPricesParams tokens searchWidth

/-- The URL `getProtocol` fetches. -/
def protocolRequestUrl (protocolId : String) : String :=
  baseUrl ++ "/protocol/" ++ protocolId

/-- The URL `searchProtocols` fetches. -/
def protocolsRequestUrl : String := baseUrl ++ "/protocols"

/-- Body of `getTokenPrices` inside its `try`: fetch, throw
`Error("HTTP error! status: ...")` on a non-ok response, otherwise stringify
the JSON body. -/
def getTokenPricesBody (tokens : List String) (searchWidth : Option String)
    (fetch : FetchOracle) : Except String String := do
  let response ← awaitFetch (fetch (tokenPricesRequestUrl tokens searchWidth))
  if !response.ok then
    throw ("Error: HTTP error! status: " ++ toString response.status)
  else
    pure (jsonStringify response.body)

/-- Embedding of `DefiLlamaActionProvider.getTokenPrices`
(`defillama/types.ts` lines 39-60). -/
def getTokenPrices (tokens : List String) (searchWidth : Option String)
    (fetch : FetchOracle) : String :=
  tryCatch (getTokenPricesBody tokens searchWidth fetch)
    (fun error => "Error fetching token prices: " ++ error)

/-- Body of `getProtocol` inside its `try`. -/
def getProtocolBody (protocolId : String) (fetch : FetchOracle) :
    Except String String := do
  let response ← awaitFetch (fetch (protocolRequestUrl protocolId))
  if !response.ok then
    throw ("Error: HTTP error! status: " ++ toString response.status)
  else
    pure (jsonStringify response.body)

/-- Embedding of `DefiLlamaActionProvider.getProtocol`
(`defillama/types.ts` lines 67-81). -/
def getProtocol (protocolId : String) (fetch : FetchOracle) : String :=
  tryCatch (getProtocolBody protocolId fetch)
    (fun error => "Error fetching protocol information: " ++ error)

/-- One step of `protocols.filter(p => p.name.toLowerCase().includes(q))`:
an element whose `name` is not a string makes JS throw a `TypeError`, which
the surrounding `try` catches. -/
def protocolNameMatches (q : String) : JVal → Except String Bool
  | .obj fs =>
    match getField fs "name" with
    | some (.str nm) => .ok (strIncludes nm.toLower q.toLower)
    | _ => .error "TypeError: protocol.name.toLowerCase is not a function"
  | _ => .error "TypeError: protocol.name.toLowerCase is not a function"

/-- `Array.prototype.filter` over the protocol list, in the exception
monad. -/
def filterProtocols (q : String) : List JVal → Except String (List JVal)
  | [] => .ok []
  | x :: xs => do
    let b ← protocolNameMatches q x
    let rest ← filterProtocols q xs
    pure (if b then x :: rest else rest)

/-- Body of `searchProtocols` inside its `try`: fetch the full protocol
list, filter by case-insensitive name inclusion, report an empty result with
a plain message. -/
def searchProtocolsBody (query : String) (fetch : FetchOracle) :
    Except String String := do
  let response ← awaitFetch (fetch protocolsRequestUrl)
  if !response.ok then
    throw ("Error: HTTP error! status: " ++ toString response.status)
  else
    match response.body with
    | .arr protocols => do
      let searchResults ← filterProtocols query protocols
      if searchResults.isEmpty then
        pure ("No protocols found matching \"" ++ query ++ "\"")
      else
        pure (jsonStringify (.arr searchResults))
    | _ => throw "TypeError: protocols.filter is not a function"

/-- Embedding of `DefiLlamaActionProvider.searchProtocols`
(`defillama/types.ts` lines 88-110). -/
def searchProtocols (query : String) (fetch : FetchOracle) : String :=
  tryCatch (searchProtocolsBody query fetch)
    (fun error => "Error searching protocols: " ++ error)

theorem strStartsWith_append_of (a q msg : String)
    (h : strStartsWith a q = true) (hlen : q.data.length ≤ a.data.length) :
    strStartsWith (a ++ msg) q = true := by
  simp only [strStartsWith, String.data_append] at h ⊢
  rw [List.take_append_of_le_length hlen]
  exact h

end DefiLlama

namespace DefiLlama

/-- C9: whenever the underlying fetch rejects, or resolves with a non-ok
status, each DefiLlama action returns a string beginning with its fixed
error prefix — `Error fetching token prices:`,
`Error fetching protocol information:`, `Error searching protocols:` —
instead of propagating the exception. -/
theorem provider_error_strings_c9 :
    (∀ (tokens : List String) (searchWidth : Option String)
        (fetch : FetchOracle) (msg : String),
      fetch (tokenPricesRequestUrl tokens searchWidth) = .rejects msg →
      strStartsWith (getTokenPrices tokens searchWidth fetch)
        "Error fetching token prices:" = true)
    ∧ (∀ (tokens : List String) (searchWidth : Option String)
        (fetch : FetchOracle) (r : FetchResponse),
      fetch (tokenPricesRequestUrl tokens searchWidth) = .resolves r →
      r.ok = false →
      strStartsWith (getTokenPrices tokens searchWidth fetch)
        "Error fetching token prices:" = true)
    ∧ (∀ (protocolId : String) (fetch : FetchOracle) (msg : String),
      fetch (protocolRequestUrl protocolId) = .rejects msg →
      strStartsWith (getProtocol protocolId fetch)
        "Error fetching protocol information:" = true)
    ∧ (∀ (protocolId : String) (fetch : FetchOracle) (r : FetchResponse),
      fetch (protocolRequestUrl protocolId) = .resolves r → r.ok = false →
      strStartsWith (getProtocol protocolId fetch)
        "Error fetching protocol information:" = true)
    ∧ (∀ (query : String) (fetch : FetchOracle) (msg : String),
      fetch protocolsRequestUrl = .rejects msg →
      strStartsWith (searchProtocols query fetch)
        "Error searching protocols:" = true)
    ∧ (∀ (query : String) (fetch : FetchOracle) (r : FetchResponse),
      fetch protocolsRequestUrl = .resolves r → r.ok = false →
      strStartsWith (searchProtocols query fetch)
        "Error searching protocols:" = true) := by
  refine ⟨?_, ?_, ?_, ?_, ?_, ?_⟩
  · intro tokens searchWidth fetch msg hfetch
    have hres : getTokenPrices tokens searchWidth fetch =
        "Error fetching token prices: " ++ msg := by
      unfold getTokenPrices getTokenPricesBody
      rw [hfetch]
      rfl
    rw [hres]
    exact strStartsWith_append_of _ _ _ (by decide) (by decide)
  · intro tokens searchWidth fetch r hfetch hok
    obtain ⟨rok, rstatus, rbody⟩ := r
    dsimp only at hok
    subst hok
    have hres : getTokenPrices tokens searchWidth fetch =
        "Error fetching token prices: " ++
          ("Error: HTTP error! status: " ++ toString rstatus) := by
      unfold getTokenPrices getTokenPricesBody
      rw [hfetch]
      rfl
    rw [hres]
    exact strStartsWith_append_of _ _ _ (by decide) (by decide)
  · intro protocolId fetch msg hfetch
    have hres : getProtocol protocolId fetch =
        "Error fetching protocol information: " ++ msg := by
      unfold getProtocol getProtocolBody
      rw [hfetch]
      rfl
    rw [hres]
    exact strStartsWith_append_of _ _ _ (by decide) (by decide)
  · intro protocolId fetch r hfetch hok
    obtain ⟨rok, rstatus, rbody⟩ := r
    dsimp only at hok
    subst hok
    have hres : getProtocol protocolId fetch =
        "Error fetching protocol information: " ++
          ("Error: HTTP error! status: " ++ toString rstatus) := by
      unfold getProtocol getProtocolBody
      rw [hfetch]
      rfl
    rw [hres]
    exact strStartsWith_append_of _ _ _ (by decide) (by decide)
  · intro query fetch msg hfetch
    have hres : searchProtocols query fetch =
        "Error searching protocols: " ++ msg := by
      unfold searchProtocols searchProtocolsBody
      rw [hfetch]
      rfl
    rw [hres]
    exact strStartsWith_append_of _ _ _ (by decide) (by decide)
  · intro query fetch r hfetch hok
    obtain ⟨rok, rstatus, rbody⟩ := r
    dsimp only at hok
    subst hok
    have hres : searchProtocols query fetch =
        "Error searching protocols: " ++
          ("Error: HTTP error! status: " ++ toString rstatus) := by
      unfold searchProtocols searchProtocolsBody
      rw [hfetch]
      rfl
    rw [hres]
    exact strStartsWith_append_of _ _ _ (by decide) (by decide)

theorem provider_error_strings_c9_witness :
    strStartsWith
      (getTokenPrices ["ethereum:0x1234"] none (fun _ => .rejects "boom"))
      "Error fetching token prices:" = true
    ∧ strStartsWith
        (getProtocol "aave" (fun _ => .resolves ⟨false, 404, .null⟩))
        "Error fetching protocol information:" = true
    ∧ strStartsWith
        (searchProtocols "uni" (fun _ => .rejects "network down"))
        "Error searching protocols:" = true :=
  ⟨provider_error_strings_c9.1 ["ethereum:0x1234"] none
      (fun _ => .rejects "boom") "boom" rfl,
   provider_error_strings_c9.2.2.2.1 "aave"
      (fun _ => .resolves ⟨false, 404, .null⟩) ⟨false, 404, .null⟩ rfl rfl,
   provider_error_strings_c9.2.2.2.2.1 "uni"
      (fun _ => .rejects "network down") "network down" rfl⟩

end DefiLlama

namespace SSH

/-- Modelled from the spec: the error kinds of §7; the implementing Python
files (`ssh/connection.py`, `ssh/connection_pool.py`,
`ssh_action_provider.py`) are missing from the source tree. -/
inductive SSHError where
  | InvalidCredentials
  | UnsupportedKeyType
  | UntrustedHost
  | HostKeyMismatch
  | ConnectionTimeout
  | TransportFailure
  | SessionNotFound
  | SessionDisconnected
  | IdInUse
  | TransferFailure
  | Cancelled
deriving DecidableEq, Repr

/-- Modelled from the spec: the type a private-key file parses to (§4.1
requires RSA; the missing `connection.py` holds the real parsing). -/
inductive KeyType where
  | rsa
  | ed25519
  | ecdsa
  | dsa
deriving DecidableEq, Repr

/-- Modelled from the spec: a parsed private key (type and whether it is
encrypted), standing in for the missing key-loading code. -/
structure ParsedKey where
  keyType : KeyType
  encrypted : Bool
deriving DecidableEq, Repr

/-- Modelled from the spec: the two §3 authentication methods of the missing
`connection.py` — exactly one method's fields populated. -/
inductive AuthMethod where
  | password : String → AuthMethod
  | privateKey : String → Option String → AuthMethod
deriving DecidableEq, Repr

/-- Modelled from the spec: §3 ConnectionParams of the missing
`connection.py`. -/
structure ConnectionParams where
  host : String
  port : Nat
  username : String
  auth : AuthMethod
deriving DecidableEq, Repr

/-- Modelled from the spec: §4.1 Credential Resolver of the missing
`connection.py` — rejects empty host/username, requires a readable key file
parsing as an RSA private key for privateKey auth (any other key type is
rejected with the distinct `UnsupportedKeyType` kind), requires a non-empty
password for password auth. -/
def resolve (keyFiles : String → Option ParsedKey) (p : ConnectionParams) :
    Except SSHError ConnectionParams :=
  if p.host = "" then .error .InvalidCredentials
  else if p.username = "" then .error .InvalidCredentials
  else
    match p.auth with
    | .password pw => if pw = "" then .error .InvalidCredentials else .ok p
    | .privateKey path _ =>
      match keyFiles path with
      | none => .error .InvalidCredentials
      | some key =>
        if key.keyType = .rsa then .ok p else .error .UnsupportedKeyType

/-- Modelled from the spec: a §3 Trust Store Entry of the missing host-key
handling — a (host, port, fingerprint) record in the known-hosts file. -/
structure TrustEntry where
  host : String
  port : Nat
  fingerprint : String
deriving DecidableEq, Repr

/-- Modelled from the spec: the §4.2 `verify` verdict. -/
inductive VerifyResult where
  | Trusted
  | Unknown
  | Mismatched
deriving DecidableEq, Repr

/-- Modelled from the spec: §4.2 `verify` of the missing trust store —
Trusted when the exact (host, port, fingerprint) is recorded, Mismatched
when the host and port are known only with other fingerprints, Unknown when
the host was never seen. -/
def verify (store : List TrustEntry) (host : String) (port : Nat)
    (fingerprint : String) : VerifyResult :=
  if store.any (fun e =>
      e.host == host && e.port == port && e.fingerprint == fingerprint) then
    .Trusted
  else if store.any (fun e => e.host == host && e.port == port) then
    .Mismatched
  else
    .Unknown

/-- Modelled from the spec: §4.2 `trust` of the missing trust store —
appends a new entry; never removes or overwrites (rotation keeps history). -/
def trust (store : List TrustEntry) (host : String) (port : Nat)
    (fingerprint : String) : List TrustEntry :=
  store ++ [⟨host, port, fingerprint⟩]

/-- Modelled from the spec: the §4.3 session state machine
`Initializing -> Connected -> Disconnected`. -/
inductive SessionStatus where
  | Initializing
  | Connected
  | Disconnected
deriving DecidableEq, Repr

/-- Modelled from the spec: a §3 Session of the missing `connection.py`
(the exclusively owned transport handle is represented by the session's
status; channels are per-operation). -/
structure Session where
  id : String
  params : ConnectionParams
  status : SessionStatus
  createdAt : Nat
  lastUsedAt : Nat
deriving DecidableEq, Repr

/-- Modelled from the spec: the pooled state of the missing
`connection_pool.py` — the id-to-session registry plus the on-disk trust
store. -/
structure ManagerState where
  registry : List (String × Session)
  trustStore : List TrustEntry
deriving DecidableEq, Repr

/-- Registry lookup (first binding for the id). -/
def lookupReg : List (String × Session) → String → Option Session
  | [], _ => none
  | (k, s) :: rest, id => if k == id then some s else lookupReg rest id

/-- Modelled from the spec: §4.4 `get` of the missing
`connection_pool.py`. -/
def lookupSession (st : ManagerState) (id : String) : Option Session :=
  lookupReg st.registry id

/-- Pointwise update of the registry entries bound to `target`. -/
def updateReg : List (String × Session) → String → (Session → Session) →
    List (String × Session)
  | [], _, _ => []
  | (k, s) :: rest, target, f =>
    (if k == target then (k, f s) else (k, s)) :: updateReg rest target f

/-- Result data of one remote command execution. -/
structure ExecData where
  stdout : String
  stderr : String
  exitStatus : Int
deriving DecidableEq, Repr

/-- Modelled from the spec: what one fresh command channel can observe —
completion with captured output and exit status (§4.3), a channel-open
failure, or a connection drop (§5, §7). -/
inductive ChannelOutcome where
  | completes : ExecData → ChannelOutcome
  | channelOpenFailure
  | connectionDrop
deriving DecidableEq, Repr

/-- Modelled from the spec: what one file-transfer channel can observe. -/
inductive TransferOutcome where
  | success
  | failure
  | drop
deriving DecidableEq, Repr

/-- Modelled from the spec: the environment of the manager — the readable
key files, the fingerprint each host presents, whether transport
open/authentication succeeds, the outcome of command and transfer channels,
and the clock. -/
structure World where
  keyFiles : String → Option ParsedKey
  hostKey : String → Nat → String
  transportOk : String → Nat → Bool
  exec : String → String → ChannelOutcome
  transferUp : String → String → String → TransferOutcome
  transferDown : String → String → String → TransferOutcome
  now : Nat

/-- Modelled from the spec: §4.4 — a freshly constructed `Connected`
session. -/
def mkSession (id : String) (p : ConnectionParams) (now : Nat) : Session :=
  { id := id, params := p, status := .Connected, createdAt := now,
    lastUsedAt := now }

/-- Whether an explicitly requested id is already taken (§4.4: a generated
id is assumed fresh). -/
def idRequestedTaken (st : ManagerState) (requestedId : Option String) : Bool :=
  match requestedId with
  | some rid => (lookupSession st rid).isSome
  | none => false

/-- Modelled from the spec: §4.4 `create` / §6 `connect` of the missing
`connection_pool.py` and facade — resolve credentials first, then the
requested-id collision check, then host-trust verification, then the
transport open; validation failures report before any network I/O with no
partial state; an unknown host fails closed unless first-use trust is
explicitly pre-authorized, in which case the presented fingerprint is
appended to the trust store; on success a `Connected` session is registered
under the id and the id returned. -/
def connect (w : World) (st : ManagerState) (p : ConnectionParams)
    (requestedId : Option String) (allowUnknownHosts : Bool)
    (freshId : String) : ManagerState × Except SSHError String :=
  match resolve w.keyFiles p with
  | .error e => (st, .error e)
  | .ok _ =>
    if idRequestedTaken st requestedId then (st, .error .IdInUse)
    else
      match verify st.trustStore p.host p.port (w.hostKey p.host p.port) with
      | .Mismatched => (st, .error .HostKeyMismatch)
      | .Unknown =>
        if allowUnknownHosts then
          if w.transportOk p.host p.port then
            ({ registry := st.registry ++
                 [(requestedId.getD freshId,
                   mkSession (requestedId.getD freshId) p w.now)],
               trustStore := trust st.trustStore p.host p.port
                 (w.hostKey p.host p.port) },
             .ok (requestedId.getD freshId))
          else
            ({ st with
                trustStore :=
                  trust st.trustStore p.host p.port (w.hostKey p.host p.port) },
             .error .ConnectionTimeout)
        else (st, .error .UntrustedHost)
      | .Trusted =>
        if w.transportOk p.host p.port then
          ({ st with registry := st.registry ++
               [(requestedId.getD freshId,
                 mkSession (requestedId.getD freshId) p w.now)] },
           .ok (requestedId.getD freshId))
        else (st, .error .ConnectionTimeout)

/-- Registry-only update setting the status of the sessions bound to
`id`. -/
def setSessionStatus (st : ManagerState) (id : String)
    (status : SessionStatus) : ManagerState :=
  { st with
    registry := updateReg st.registry id (fun s => { s with status := status }) }

/-- Registry-only update refreshing `lastUsedAt` of the sessions bound to
`id`. -/
def touchSession (st : ManagerState) (id : String) (now : Nat) : ManagerState :=
  { st with
    registry := updateReg st.registry id (fun s => { s with lastUsedAt := now }) }

/-- Modelled from the spec: §4.3 `execute` of the missing `connection.py` —
an unknown id fails with `SessionNotFound`; a non-Connected (stale) session
fails with the distinct `SessionDisconnected` error instead of reconnecting;
on a Connected session a fresh command channel runs the command: completion
returns stdout, stderr and exit status as data whatever the exit status; a
channel-open failure reports `TransportFailure`; a connection drop reports
`TransportFailure` and transitions the session to `Disconnected`. -/
def execute (w : World) (st : ManagerState) (id : String) (command : String) :
    ManagerState × Except SSHError ExecData :=
  match lookupSession st id with
  | none => (st, .error .SessionNotFound)
  | some s =>
    match s.status with
    | .Connected =>
      match w.exec id command with
      | .completes d => (touchSession st id w.now, .ok d)
      | .channelOpenFailure => (st, .error .TransportFailure)
      | .connectionDrop =>
        (setSessionStatus st id .Disconnected, .error .TransportFailure)
    | _ => (st, .error .SessionDisconnected)

/-- Modelled from the spec: §4.3 `upload` of the missing `connection.py` —
same session gating as `execute`, with a file-transfer channel. -/
def upload (w : World) (st : ManagerState) (id localPath remotePath : String) :
    ManagerState × Except SSHError Unit :=
  match lookupSession st id with
  | none => (st, .error .SessionNotFound)
  | some s =>
    match s.status with
    | .Connected =>
      match w.transferUp id localPath remotePath with
      | .success => (touchSession st id w.now, .ok ())
      | .failure => (st, .error .TransferFailure)
      | .drop => (setSessionStatus st id .Disconnected, .error .TransportFailure)
    | _ => (st, .error .SessionDisconnected)

/-- Modelled from the spec: §4.3 `download` of the missing
`connection.py`. -/
def download (w : World) (st : ManagerState) (id remotePath localPath : String) :
    ManagerState × Except SSHError Unit :=
  match lookupSession st id with
  | none => (st, .error .SessionNotFound)
  | some s =>
    match s.status with
    | .Connected =>
      match w.transferDown id remotePath localPath with
      | .success => (touchSession st id w.now, .ok ())
      | .failure => (st, .error .TransferFailure)
      | .drop => (setSessionStatus st id .Disconnected, .error .TransportFailure)
    | _ => (st, .error .SessionDisconnected)

/-- Modelled from the spec: §4.3 `disconnect` of the missing
`connection.py` — closes channels and the transport; idempotent: a second
call returns success again and changes nothing; the registry entry stays so
`status`/`list` can still report `Disconnected`. -/
def disconnect (st : ManagerState) (id : String) :
    ManagerState × Except SSHError Unit :=
  match lookupSession st id with
  | none => (st, .error .SessionNotFound)
  | some s =>
    match s.status with
    | .Disconnected => (st, .ok ())
    | _ => (setSessionStatus st id .Disconnected, .ok ())

/-- The payload of `status`. -/
structure StatusInfo where
  status : SessionStatus
  host : String
  port : Nat
  username : String
  createdAt : Nat
  lastUsedAt : Nat
deriving DecidableEq, Repr

/-- Modelled from the spec: §4.3 `status` — a pure read of in-memory session
state, no network I/O and no state change. -/
def statusOp (st : ManagerState) (id : String) : Except SSHError StatusInfo :=
  match lookupSession st id with
  | none => .error .SessionNotFound
  | some s =>
    .ok ⟨s.status, s.params.host, s.params.port, s.params.username,
      s.createdAt, s.lastUsedAt⟩

/-- Modelled from the spec: §4.4 `list` — an ordered snapshot of session
summaries (id, host, username, status). -/
def listOp (st : ManagerState) :
    List (String × String × String × SessionStatus) :=
  st.registry.map (fun e => (e.1, e.2.params.host, e.2.params.username, e.2.status))

/-- Modelled from the spec: §6 `trust_host_key` — appends to the trust
store and confirms. -/
def trustHostKey (st : ManagerState) (host : String) (port : Nat)
    (fingerprint : String) : ManagerState × Except SSHError Unit :=
  ({ st with trustStore := trust st.trustStore host port fingerprint }, .ok ())

/-- Modelled from the spec: one §6 facade operation invocation. -/
inductive Op where
  | connectOp : ConnectionParams → Option String → Bool → String → Op
  | executeOp : String → String → Op
  | uploadOp : String → String → String → Op
  | downloadOp : String → String → String → Op
  | statusQueryOp : String → Op
  | listQueryOp : Op
  | disconnectOp : String → Op
  | trustOp : String → Nat → String → Op

/-- The manager state after one facade operation (queries read only). -/
def step (w : World) (st : ManagerState) : Op → ManagerState
  | .connectOp p rid allow fresh => (connect w st p rid allow fresh).1
  | .executeOp id cmd => (execute w st id cmd).1
  | .uploadOp id lp rp => (upload w st id lp rp).1
  | .downloadOp id rp lp => (download w st id rp lp).1
  | .statusQueryOp _ => st
  | .listQueryOp => st
  | .disconnectOp id => (disconnect st id).1
  | .trustOp h p fp => (trustHostKey st h p fp).1

/-- The manager state after a sequence of facade operations. -/
def run (w : World) : ManagerState → List Op → ManagerState
  | st, [] => st
  | st, op :: ops => run w (step w st op) ops

end SSH

namespace SSH

theorem lookupReg_append_left {reg : List (String × Session)} {id : String}
    {s : Session} (h : lookupReg reg id = some s) (l : List (String × Session)) :
    lookupReg (reg ++ l) id = some s := by
  induction reg with
  | nil => simp [lookupReg] at h
  | cons e rest ih =>
    obtain ⟨k, t⟩ := e
    rw [lookupReg] at h
    rw [List.cons_append, lookupReg]
    by_cases hk : (k == id) = true
    · rw [if_pos hk] at h ⊢
      exact h
    · rw [if_neg hk] at h ⊢
      exact ih h

theorem lookupReg_append_self {reg : List (String × Session)} {id : String}
    (h : lookupReg reg id = none) (s : Session) :
    lookupReg (reg ++ [(id, s)]) id = some s := by
  induction reg with
  | nil => simp [lookupReg]
  | cons e rest ih =>
    obtain ⟨k, t⟩ := e
    rw [lookupReg] at h
    rw [List.cons_append, lookupReg]
    by_cases hk : (k == id) = true
    · rw [if_pos hk] at h
      exact Option.noConfusion h
    · rw [if_neg hk] at h ⊢
      exact ih h

theorem lookupReg_none_countP {reg : List (String × Session)} {id : String}
    (h : lookupReg reg id = none) :
    reg.countP (fun e => e.1 == id) = 0 := by
  induction reg with
  | nil => rfl
  | cons e rest ih =>
    obtain ⟨k, t⟩ := e
    rw [lookupReg] at h
    by_cases hk : (k == id) = true
    · rw [if_pos hk] at h
      exact Option.noConfusion h
    · rw [if_neg hk] at h
      rw [List.countP_cons]
      simp only [hk]
      simp [ih h]

theorem lookupReg_updateReg_ne {reg : List (String × Session)} {j id : String}
    (h : j ≠ id) (f : Session → Session) :
    lookupReg (updateReg reg j f) id = lookupReg reg id := by
  induction reg with
  | nil => rfl
  | cons e rest ih =>
    obtain ⟨k, t⟩ := e
    rw [updateReg]
    by_cases hkj : (k == j) = true
    · rw [if_pos hkj, lookupReg, lookupReg]
      have hki : (k == id) = false := by
        have hk : k = j := by simpa using hkj
        simp [beq_eq_false_iff_ne, hk, h]
      rw [if_neg (by simp [hki]), if_neg (by simp [hki])]
      exact ih
    · rw [if_neg hkj, lookupReg, lookupReg]
      by_cases hki : (k == id) = true
      · rw [if_pos hki, if_pos hki]
      · rw [if_neg hki, if_neg hki]
        exact ih

theorem lookupReg_updateReg_self (reg : List (String × Session)) (id : String)
    (f : Session → Session) :
    lookupReg (updateReg reg id f) id = (lookupReg reg id).map f := by
  induction reg with
  | nil => rfl
  | cons e rest ih =>
    obtain ⟨k, t⟩ := e
    rw [updateReg]
    by_cases hki : (k == id) = true
    · rw [if_pos hki, lookupReg, if_pos hki, lookupReg, if_pos hki]
      rfl
    · rw [if_neg hki, lookupReg, if_neg hki, lookupReg, if_neg hki]
      exact ih

theorem connect_registry_cases (w : World) (st : ManagerState)
    (p : ConnectionParams) (rid : Option String) (allow : Bool) (fresh : String) :
    (connect w st p rid allow fresh).1.registry = st.registry ∨
    ∃ e, (connect w st p rid allow fresh).1.registry = st.registry ++ [e] := by
  unfold connect
  repeat' split
  all_goals first
    | exact Or.inl rfl
    | exact Or.inr ⟨_, rfl⟩

theorem connect_trust_cases (w : World) (st : ManagerState)
    (p : ConnectionParams) (rid : Option String) (allow : Bool) (fresh : String) :
    (connect w st p rid allow fresh).1.trustStore = st.trustStore ∨
    ∃ e, (connect w st p rid allow fresh).1.trustStore = st.trustStore ++ [e] := by
  unfold connect
  repeat' split
  all_goals first
    | exact Or.inl rfl
    | exact Or.inr ⟨_, rfl⟩

theorem execute_state_cases (w : World) (st : ManagerState) (j cmd : String) :
    (execute w st j cmd).1 = st ∨
    (execute w st j cmd).1 = touchSession st j w.now ∨
    (execute w st j cmd).1 = setSessionStatus st j .Disconnected := by
  unfold execute
  repeat' split
  all_goals first
    | exact Or.inl rfl
    | exact Or.inr (Or.inl rfl)
    | exact Or.inr (Or.inr rfl)

theorem upload_state_cases (w : World) (st : ManagerState) (j lp rp : String) :
    (upload w st j lp rp).1 = st ∨
    (upload w st j lp rp).1 = touchSession st j w.now ∨
    (upload w st j lp rp).1 = setSessionStatus st j .Disconnected := by
  unfold upload
  repeat' split
  all_goals first
    | exact Or.inl rfl
    | exact Or.inr (Or.inl rfl)
    | exact Or.inr (Or.inr rfl)

theorem download_state_cases (w : World) (st : ManagerState) (j rp lp : String) :
    (download w st j rp lp).1 = st ∨
    (download w st j rp lp).1 = touchSession st j w.now ∨
    (download w st j rp lp).1 = setSessionStatus st j .Disconnected := by
  unfold download
  repeat' split
  all_goals first
    | exact Or.inl rfl
    | exact Or.inr (Or.inl rfl)
    | exact Or.inr (Or.inr rfl)

theorem disconnect_state_cases (st : ManagerState) (j : String) :
    (disconnect st j).1 = st ∨
    (disconnect st j).1 = setSessionStatus st j .Disconnected := by
  unfold disconnect
  repeat' split
  all_goals first
    | exact Or.inl rfl
    | exact Or.inr rfl

theorem disconnected_after_update (st : ManagerState) (j id : String)
    (f : Session → Session)
    (hf : ∀ t, (f t).status = .Disconnected ∨ (f t).status = t.status)
    {s : Session} (hs : lookupSession st id = some s)
    (hd : s.status = .Disconnected) :
    ∃ s2, lookupSession { st with registry := updateReg st.registry j f } id =
      some s2 ∧ s2.status = .Disconnected := by
  unfold lookupSession at hs ⊢
  by_cases hji : j = id
  · subst hji
    show ∃ s2, lookupReg (updateReg st.registry j f) j = some s2 ∧
      s2.status = .Disconnected
    rw [lookupReg_updateReg_self, hs]
    rcases hf s with h | h
    · exact ⟨f s, rfl, h⟩
    · exact ⟨f s, rfl, by rw [h, hd]⟩
  · show ∃ s2, lookupReg (updateReg st.registry j f) id = some s2 ∧
      s2.status = .Disconnected
    rw [lookupReg_updateReg_ne hji, hs]
    exact ⟨s, rfl, hd⟩

theorem disconnected_after_touch (st : ManagerState) (j id : String) (now : Nat)
    {s : Session} (hs : lookupSession st id = some s)
    (hd : s.status = .Disconnected) :
    ∃ s2, lookupSession (touchSession st j now) id = some s2 ∧
      s2.status = .Disconnected :=
  disconnected_after_update st j id _ (fun _ => Or.inr rfl) hs hd

theorem disconnected_after_set (st : ManagerState) (j id : String)
    {s : Session} (hs : lookupSession st id = some s)
    (hd : s.status = .Disconnected) :
    ∃ s2, lookupSession (setSessionStatus st j .Disconnected) id = some s2 ∧
      s2.status = .Disconnected :=
  disconnected_after_update st j id _ (fun _ => Or.inl rfl) hs hd

theorem step_preserves_disconnected (w : World) (op : Op) (st : ManagerState)
    (id : String) (s : Session) (hs : lookupSession st id = some s)
    (hd : s.status = .Disconnected) :
    ∃ s2, lookupSession (step w st op) id = some s2 ∧
      s2.status = .Disconnected := by
  cases op with
  | connectOp p rid allow fresh =>
    simp only [step]
    rcases connect_registry_cases w st p rid allow fresh with h | ⟨e, h⟩
    · refine ⟨s, ?_, hd⟩
      unfold lookupSession at hs ⊢
      rw [h]
      exact hs
    · refine ⟨s, ?_, hd⟩
      unfold lookupSession at hs ⊢
      rw [h]
      exact lookupReg_append_left hs _
  | executeOp j cmd =>
    simp only [step]
    rcases execute_state_cases w st j cmd with h | h | h
    · rw [h]; exact ⟨s, hs, hd⟩
    · rw [h]; exact disconnected_after_touch st j id w.now hs hd
    · rw [h]; exact disconnected_after_set st j id hs hd
  | uploadOp j lp rp =>
    simp only [step]
    rcases upload_state_cases w st j lp rp with h | h | h
    · rw [h]; exact ⟨s, hs, hd⟩
    · rw [h]; exact disconnected_after_touch st j id w.now hs hd
    · rw [h]; exact disconnected_after_set st j id hs hd
  | downloadOp j rp lp =>
    simp only [step]
    rcases download_state_cases w st j rp lp with h | h | h
    · rw [h]; exact ⟨s, hs, hd⟩
    · rw [h]; exact disconnected_after_touch st j id w.now hs hd
    · rw [h]; exact disconnected_after_set st j id hs hd
  | statusQueryOp j => exact ⟨s, hs, hd⟩
  | listQueryOp => exact ⟨s, hs, hd⟩
  | disconnectOp j =>
    simp only [step]
    rcases disconnect_state_cases st j with h | h
    · rw [h]; exact ⟨s, hs, hd⟩
    · rw [h]; exact disconnected_after_set st j id hs hd
  | trustOp h2 p2 fp2 =>
    exact ⟨s, hs, hd⟩

theorem run_preserves_disconnected (w : World) (ops : List Op) :
    ∀ (st : ManagerState) (id : String) (s : Session),
    lookupSession st id = some s → s.status = .Disconnected →
    ∃ s2, lookupSession (run w st ops) id = some s2 ∧
      s2.status = .Disconnected := by
  induction ops with
  | nil => intro st id s hs hd; exact ⟨s, hs, hd⟩
  | cons op ops ih =>
    intro st id s hs hd
    obtain ⟨s1, hs1, hd1⟩ := step_preserves_disconnected w op st id s hs hd
    exact ih (step w st op) id s1 hs1 hd1

end SSH

namespace SSH

theorem step_trust_extends (w : World) (st : ManagerState) (op : Op) :
    (step w st op).trustStore = st.trustStore ∨
    ∃ e, (step w st op).trustStore = st.trustStore ++ [e] := by
  cases op with
  | connectOp p rid allow fresh => exact connect_trust_cases w st p rid allow fresh
  | executeOp j cmd =>
    rcases execute_state_cases w st j cmd with h | h | h <;>
      (simp only [step]; rw [h]; exact Or.inl rfl)
  | uploadOp j lp rp =>
    rcases upload_state_cases w st j lp rp with h | h | h <;>
      (simp only [step]; rw [h]; exact Or.inl rfl)
  | downloadOp j rp lp =>
    rcases download_state_cases w st j rp lp with h | h | h <;>
      (simp only [step]; rw [h]; exact Or.inl rfl)
  | statusQueryOp j => exact Or.inl rfl
  | listQueryOp => exact Or.inl rfl
  | disconnectOp j =>
    rcases disconnect_state_cases st j with h | h <;>
      (simp only [step]; rw [h]; exact Or.inl rfl)
  | trustOp h2 p2 fp2 => exact Or.inr ⟨⟨h2, p2, fp2⟩, rfl⟩

theorem run_trust_extends (w : World) (ops : List Op) :
    ∀ (st : ManagerState) (i : Nat), i < st.trustStore.length →
    (run w st ops).trustStore[i]? = st.trustStore[i]? := by
  induction ops with
  | nil => intro st i hi; rfl
  | cons op ops ih =>
    intro st i hi
    rcases step_trust_extends w st op with h | ⟨e, h⟩
    · have h2 := ih (step w st op) i (by rw [h]; exact hi)
      rw [run, h2, h]
    · have hi2 : i < (step w st op).trustStore.length := by
        rw [h, List.length_append]
        simp only [List.length_cons, List.length_nil]
        omega
      have h2 := ih (step w st op) i hi2
      rw [run, h2, h, List.getElem?_append_left hi]

/-- C4: the session state machine is terminal in `Disconnected` — `execute`,
`upload` and `download` on a `Disconnected` session each fail with the
distinct `SessionDisconnected` stale-session error, leaving the state
untouched (no reconnection), and no sequence of facade operations ever moves
a registered session out of `Disconnected`. -/
theorem disconnected_terminal_c4 :
    (∀ (w : World) (st : ManagerState) (id cmd : String) (s : Session),
      lookupSession st id = some s → s.status = .Disconnected →
      execute w st id cmd = (st, .error .SessionDisconnected))
    ∧ (∀ (w : World) (st : ManagerState) (id lp rp : String) (s : Session),
      lookupSession st id = some s → s.status = .Disconnected →
      upload w st id lp rp = (st, .error .SessionDisconnected))
    ∧ (∀ (w : World) (st : ManagerState) (id rp lp : String) (s : Session),
      lookupSession st id = some s → s.status = .Disconnected →
      download w st id rp lp = (st, .error .SessionDisconnected))
    ∧ (∀ (w : World) (ops : List Op) (st : ManagerState) (id : String)
        (s : Session),
      lookupSession st id = some s → s.status = .Disconnected →
      ∃ s2, lookupSession (run w st ops) id = some s2 ∧
        s2.status = .Disconnected) := by
  refine ⟨?_, ?_, ?_,
    fun w ops st id s hs hd => run_preserves_disconnected w ops st id s hs hd⟩
  · intro w st id cmd s hs hd
    obtain ⟨sid, sp, sstat, sc, sl⟩ := s
    dsimp only at hd
    subst hd
    unfold execute
    rw [hs]
  · intro w st id lp rp s hs hd
    obtain ⟨sid, sp, sstat, sc, sl⟩ := s
    dsimp only at hd
    subst hd
    unfold upload
    rw [hs]
  · intro w st id rp lp s hs hd
    obtain ⟨sid, sp, sstat, sc, sl⟩ := s
    dsimp only at hd
    subst hd
    unfold download
    rw [hs]

/-- C5: `disconnect` is idempotent — on any registered session both calls
return success, the transition to `Disconnected` happens on the first call
(visible in the registry), the second call changes nothing, and a first call
on an already-`Disconnected` session is already a no-op. -/
theorem disconnect_idempotent_c5 :
    ∀ (st : ManagerState) (id : String) (s : Session),
    lookupSession st id = some s →
    (disconnect st id).2 = .ok ()
    ∧ (disconnect (disconnect st id).1 id).2 = .ok ()
    ∧ (disconnect (disconnect st id).1 id).1 = (disconnect st id).1
    ∧ (∃ s1, lookupSession (disconnect st id).1 id = some s1 ∧
        s1.status = .Disconnected)
    ∧ (s.status = .Disconnected → (disconnect st id).1 = st) := by
  intro st id s hs
  obtain ⟨sid, sp, sstat, sc, sl⟩ := s
  cases sstat with
  | Disconnected =>
    have h1 : disconnect st id = (st, .ok ()) := by
      unfold disconnect
      rw [hs]
    have hfst : (disconnect st id).1 = st := by rw [h1]
    refine ⟨by rw [h1], ?_, ?_, ?_, fun _ => hfst⟩
    · rw [hfst, h1]
    · rw [hfst]
      exact hfst
    · rw [hfst]
      exact ⟨⟨sid, sp, .Disconnected, sc, sl⟩, hs, rfl⟩
  | Connected =>
    have h1 : disconnect st id = (setSessionStatus st id .Disconnected, .ok ()) := by
      unfold disconnect
      rw [hs]
    have hfst : (disconnect st id).1 = setSessionStatus st id .Disconnected := by
      rw [h1]
    have hlook : lookupSession (setSessionStatus st id .Disconnected) id =
        some ⟨sid, sp, .Disconnected, sc, sl⟩ := by
      show lookupReg (updateReg st.registry id
        (fun s => { s with status := .Disconnected })) id = _
      rw [lookupReg_updateReg_self]
      unfold lookupSession at hs
      rw [hs]
      rfl
    have h2 : disconnect (setSessionStatus st id .Disconnected) id =
        (setSessionStatus st id .Disconnected, .ok ()) := by
      unfold disconnect
      rw [hlook]
    refine ⟨by rw [h1], ?_, ?_, ?_, ?_⟩
    · rw [hfst, h2]
    · rw [hfst, h2]
    · rw [hfst, hlook]
      exact ⟨⟨sid, sp, .Disconnected, sc, sl⟩, rfl, rfl⟩
    · intro hcon
      exact absurd hcon (by intro hh; exact SessionStatus.noConfusion hh)
  | Initializing =>
    have h1 : disconnect st id = (setSessionStatus st id .Disconnected, .ok ()) := by
      unfold disconnect
      rw [hs]
    have hfst : (disconnect st id).1 = setSessionStatus st id .Disconnected := by
      rw [h1]
    have hlook : lookupSession (setSessionStatus st id .Disconnected) id =
        some ⟨sid, sp, .Disconnected, sc, sl⟩ := by
      show lookupReg (updateReg st.registry id
        (fun s => { s with status := .Disconnected })) id = _
      rw [lookupReg_updateReg_self]
      unfold lookupSession at hs
      rw [hs]
      rfl
    have h2 : disconnect (setSessionStatus st id .Disconnected) id =
        (setSessionStatus st id .Disconnected, .ok ()) := by
      unfold disconnect
      rw [hlook]
    refine ⟨by rw [h1], ?_, ?_, ?_, ?_⟩
    · rw [hfst, h2]
    · rw [hfst, h2]
    · rw [hfst, hlook]
      exact ⟨⟨sid, sp, .Disconnected, sc, sl⟩, rfl, rfl⟩
    · intro hcon
      exact absurd hcon (by intro hh; exact SessionStatus.noConfusion hh)

/-- C6: the host trust store is append-only — `trust` keeps every existing
entry unchanged at its position and appends the new entry at the end, and no
facade operation (connect with first-use trust included) ever removes or
rewrites an existing trust-store entry. -/
theorem trust_store_append_only_c6 :
    (∀ (store : List TrustEntry) (host : String) (port : Nat) (fp : String),
      (∀ i, i < store.length → (trust store host port fp)[i]? = store[i]?)
      ∧ (trust store host port fp)[store.length]? = some ⟨host, port, fp⟩
      ∧ (trust store host port fp).length = store.length + 1)
    ∧ (∀ (w : World) (ops : List Op) (st : ManagerState) (i : Nat),
        i < st.trustStore.length →
        (run w st ops).trustStore[i]? = st.trustStore[i]?) := by
  constructor
  · intro store host port fp
    refine ⟨fun i hi => ?_, ?_, ?_⟩
    · rw [trust, List.getElem?_append_left hi]
    · rw [trust, List.getElem?_append_right (le_refl _)]
      simp
    · rw [trust]
      simp
  · intro w ops st i hi
    exact run_trust_extends w ops st i hi

/-- C7: on a `Connected` session, a completed remote command — whatever its
exit status — is returned as data (`stdout`, `stderr`, `exitStatus`) and
never as an error; `execute` errors only on transport-level failures
(channel-open failure or connection drop), with `TransportFailure`. -/
theorem execute_exit_status_c7 :
    ∀ (w : World) (st : ManagerState) (id cmd : String) (s : Session),
    lookupSession st id = some s → s.status = .Connected →
    (∀ d : ExecData, w.exec id cmd = .completes d →
      (execute w st id cmd).2 = .ok d)
    ∧ (w.exec id cmd = .channelOpenFailure →
      (execute w st id cmd).2 = .error .TransportFailure)
    ∧ (w.exec id cmd = .connectionDrop →
      (execute w st id cmd).2 = .error .TransportFailure) := by
  intro w st id cmd s hs hc
  obtain ⟨sid, sp, sstat, sc, sl⟩ := s
  dsimp only at hc
  subst hc
  refine ⟨fun d hd => ?_, fun h => ?_, fun h => ?_⟩
  · simp [execute, hs, hd]
  · simp [execute, hs, h]
  · simp [execute, hs, h]

end SSH

namespace SSH

/-- C1: a connect attempt against a host already recorded in the trust store
(for that host and port) whose presented fingerprint differs from every
trusted fingerprint always fails with the `HostKeyMismatch` error kind — a
kind distinct from the unknown-host `UntrustedHost` kind — and changes
nothing. -/
theorem connect_mismatch_c1 :
    ∀ (w : World) (st : ManagerState) (p : ConnectionParams)
      (requestedId : Option String) (allow : Bool) (freshId : String),
    resolve w.keyFiles p = .ok p →
    idRequestedTaken st requestedId = false →
    (∃ e ∈ st.trustStore, e.host = p.host ∧ e.port = p.port) →
    (∀ e ∈ st.trustStore, e.host = p.host → e.port = p.port →
      e.fingerprint ≠ w.hostKey p.host p.port) →
    (connect w st p requestedId allow freshId).2 = .error .HostKeyMismatch
    ∧ (connect w st p requestedId allow freshId).1 = st
    ∧ SSHError.HostKeyMismatch ≠ SSHError.UntrustedHost := by
  intro w st p rid allow fresh hres hfree hknown hdiff
  have hv : verify st.trustStore p.host p.port (w.hostKey p.host p.port) =
      .Mismatched := by
    rw [verify]
    have h1 : st.trustStore.any (fun e =>
        e.host == p.host && e.port == p.port &&
        e.fingerprint == w.hostKey p.host p.port) = false := by
      rw [List.any_eq_false]
      intro e he
      simp only [Bool.and_eq_true, beq_iff_eq, not_and]
      rintro ⟨hh, hp⟩ hf
      exact hdiff e he hh hp hf
    have h2 : st.trustStore.any
        (fun e => e.host == p.host && e.port == p.port) = true := by
      rw [List.any_eq_true]
      obtain ⟨e, he, hh, hp⟩ := hknown
      exact ⟨e, he, by simp [hh, hp]⟩
    rw [if_neg (by simp [h1]), if_pos h2]
  refine ⟨?_, ?_, fun hh => SSHError.noConfusion hh⟩
  · simp [connect, hres, hfree, hv]
  · simp [connect, hres, hfree, hv]

/-- C2: two connect calls racing on the same explicitly requested id — run
in either serialization, which the spec's mutual exclusion of id-space
mutations guarantees is the only possible behavior — end with exactly one
success, the other failing with `IdInUse`, and exactly one registry entry
under that id. -/
theorem connect_same_id_race_c2 :
    ∀ (w : World) (st : ManagerState) (p q : ConnectionParams) (i : String)
      (a1 a2 : Bool) (f1 f2 : String),
    lookupSession st i = none →
    resolve w.keyFiles p = .ok p →
    resolve w.keyFiles q = .ok q →
    verify st.trustStore p.host p.port (w.hostKey p.host p.port) = .Trusted →
    w.transportOk p.host p.port = true →
    (connect w st p (some i) a1 f1).2 = .ok i
    ∧ (connect w (connect w st p (some i) a1 f1).1 q (some i) a2 f2).2 =
        .error .IdInUse
    ∧ List.countP (fun e => e.1 == i)
        (connect w (connect w st p (some i) a1 f1).1 q (some i) a2 f2).1.registry
        = 1 := by
  intro w st p q i a1 a2 f1 f2 hfree hrp hrq hv htr
  have hfree2 : idRequestedTaken st (some i) = false := by
    simp [idRequestedTaken, hfree]
  have h1 : connect w st p (some i) a1 f1 =
      ({ st with registry := st.registry ++ [(i, mkSession i p w.now)] },
       .ok i) := by
    simp [connect, hrp, hfree2, hv, htr]
  have hlook1 : lookupSession
      ({ st with registry := st.registry ++ [(i, mkSession i p w.now)] }) i =
      some (mkSession i p w.now) := by
    show lookupReg (st.registry ++ [(i, mkSession i p w.now)]) i = _
    exact lookupReg_append_self hfree _
  have htaken : idRequestedTaken
      ({ st with registry := st.registry ++ [(i, mkSession i p w.now)] })
      (some i) = true := by
    simp [idRequestedTaken, hlook1]
  have h2 : connect w
      ({ st with registry := st.registry ++ [(i, mkSession i p w.now)] })
      q (some i) a2 f2 =
      ({ st with registry := st.registry ++ [(i, mkSession i p w.now)] },
       .error .IdInUse) := by
    simp [connect, hrq, htaken]
  refine ⟨by rw [h1], ?_, ?_⟩
  · rw [h1]
    show (connect w
      ({ st with registry := st.registry ++ [(i, mkSession i p w.now)] })
      q (some i) a2 f2).2 = .error .IdInUse
    rw [h2]
  · rw [h1]
    show List.countP (fun e => e.1 == i)
      (connect w
        ({ st with registry := st.registry ++ [(i, mkSession i p w.now)] })
        q (some i) a2 f2).1.registry = 1
    rw [h2]
    show List.countP (fun e => e.1 == i)
      (st.registry ++ [(i, mkSession i p w.now)]) = 1
    rw [List.countP_append, lookupReg_none_countP hfree]
    simp [List.countP_cons]

/-- C3: a connect request using privateKey auth whose key file parses as a
non-RSA key fails with the distinct `UnsupportedKeyType` kind before any
network I/O, leaving the manager state — the registry in particular —
unchanged. -/
theorem connect_non_rsa_c3 :
    ∀ (w : World) (st : ManagerState) (host username path : String)
      (port : Nat) (passphrase : Option String) (requestedId : Option String)
      (allow : Bool) (freshId : String) (key : ParsedKey),
    host ≠ "" → username ≠ "" →
    w.keyFiles path = some key → key.keyType ≠ .rsa →
    (connect w st ⟨host, port, username, .privateKey path passphrase⟩
      requestedId allow freshId).2 = .error .UnsupportedKeyType
    ∧ (connect w st ⟨host, port, username, .privateKey path passphrase⟩
      requestedId allow freshId).1 = st := by
  intro w st host username path port pass rid allow fresh key hh hu hk htype
  have hres : resolve w.keyFiles
      ⟨host, port, username, .privateKey path pass⟩ =
      .error .UnsupportedKeyType := by
    rw [resolve]
    simp only [hh, hu, if_false]
    simp [hk, htype]
  constructor
  · simp [connect, hres]
  · simp [connect, hres]

end SSH

namespace SSH

/-- A concrete environment for exercising the SSH theorems. -/
def demoWorld : World where
  keyFiles := fun _ => some ⟨.rsa, false⟩
  hostKey := fun _ _ => "fp-demo"
  transportOk := fun _ _ => true
  exec := fun _ _ => .completes ⟨"hello", "", 7⟩
  transferUp := fun _ _ _ => .success
  transferDown := fun _ _ _ => .success
  now := 0

/-- A world whose key files parse as ed25519 keys. -/
def demoEdWorld : World :=
  { demoWorld with keyFiles := fun _ => some ⟨.ed25519, false⟩ }

/-- A world whose command channels fail to open. -/
def demoFailWorld : World :=
  { demoWorld with exec := fun _ _ => .channelOpenFailure }

/-- Concrete password-auth connection parameters. -/
def demoParams : ConnectionParams := ⟨"example.com", 22, "admin", .password "pw"⟩

/-- A concrete session in the given status. -/
def demoSession (status : SessionStatus) : Session :=
  ⟨"conn-1", demoParams, status, 0, 0⟩

/-- A manager holding one disconnected session. -/
def demoDisconnected : ManagerState :=
  ⟨[("conn-1", demoSession .Disconnected)], []⟩

/-- A manager holding one connected session. -/
def demoConnected : ManagerState :=
  ⟨[("conn-1", demoSession .Connected)], []⟩

/-- A manager that knows `example.com:22` under a different fingerprint than
the one `demoWorld` presents. -/
def demoKnownHost : ManagerState := ⟨[], [⟨"example.com", 22, "fp-old"⟩]⟩

/-- A manager that trusts exactly the fingerprint `demoWorld` presents. -/
def demoTrustedHost : ManagerState := ⟨[], [⟨"example.com", 22, "fp-demo"⟩]⟩

theorem connect_mismatch_c1_witness :
    (connect demoWorld demoKnownHost demoParams none false "conn-9").2 =
      .error .HostKeyMismatch
    ∧ (connect demoWorld demoKnownHost demoParams none false "conn-9").1 =
      demoKnownHost
    ∧ SSHError.HostKeyMismatch ≠ SSHError.UntrustedHost :=
  connect_mismatch_c1 demoWorld demoKnownHost demoParams none false "conn-9"
    rfl rfl ⟨⟨"example.com", 22, "fp-old"⟩, by decide, rfl, rfl⟩ (by decide)

theorem connect_same_id_race_c2_witness :
    (connect demoWorld demoTrustedHost demoParams (some "conn-1") true "f1").2 =
      .ok "conn-1"
    ∧ (connect demoWorld
        (connect demoWorld demoTrustedHost demoParams (some "conn-1") true "f1").1
        demoParams (some "conn-1") true "f2").2 = .error .IdInUse
    ∧ List.countP (fun e => e.1 == "conn-1")
        (connect demoWorld
          (connect demoWorld demoTrustedHost demoParams (some "conn-1") true "f1").1
          demoParams (some "conn-1") true "f2").1.registry = 1 :=
  connect_same_id_race_c2 demoWorld demoTrustedHost demoParams demoParams
    "conn-1" true true "f1" "f2" rfl rfl rfl rfl rfl

theorem connect_non_rsa_c3_witness :
    (connect demoEdWorld ⟨[], []⟩
      ⟨"example.com", 22, "admin", .privateKey "/home/u/key" none⟩
      none false "c1").2 = .error .UnsupportedKeyType
    ∧ (connect demoEdWorld ⟨[], []⟩
      ⟨"example.com", 22, "admin", .privateKey "/home/u/key" none⟩
      none false "c1").1 = ⟨[], []⟩ :=
  connect_non_rsa_c3 demoEdWorld ⟨[], []⟩ "example.com" "admin" "/home/u/key"
    22 none none false "c1" ⟨.ed25519, false⟩ (by decide) (by decide) rfl
    (by decide)

theorem disconnected_terminal_c4_witness :
    execute demoWorld demoDisconnected "conn-1" "ls" =
      (demoDisconnected, .error .SessionDisconnected)
    ∧ upload demoWorld demoDisconnected "conn-1" "/a" "/b" =
      (demoDisconnected, .error .SessionDisconnected)
    ∧ download demoWorld demoDisconnected "conn-1" "/a" "/b" =
      (demoDisconnected, .error .SessionDisconnected)
    ∧ (∃ s2, lookupSession
        (run demoWorld demoDisconnected
          [.executeOp "conn-1" "ls", .disconnectOp "conn-1",
           .trustOp "h" 22 "fp", .connectOp demoParams (some "conn-1") true "f9"])
        "conn-1" = some s2 ∧ s2.status = .Disconnected) :=
  ⟨disconnected_terminal_c4.1 demoWorld demoDisconnected "conn-1" "ls"
      (demoSession .Disconnected) rfl rfl,
   disconnected_terminal_c4.2.1 demoWorld demoDisconnected "conn-1" "/a" "/b"
      (demoSession .Disconnected) rfl rfl,
   disconnected_terminal_c4.2.2.1 demoWorld demoDisconnected "conn-1" "/a" "/b"
      (demoSession .Disconnected) rfl rfl,
   disconnected_terminal_c4.2.2.2 demoWorld
      [.executeOp "conn-1" "ls", .disconnectOp "conn-1",
       .trustOp "h" 22 "fp", .connectOp demoParams (some "conn-1") true "f9"]
      demoDisconnected "conn-1" (demoSession .Disconnected) rfl rfl⟩

theorem disconnect_idempotent_c5_witness :
    (disconnect demoConnected "conn-1").2 = .ok ()
    ∧ (disconnect (disconnect demoConnected "conn-1").1 "conn-1").2 = .ok ()
    ∧ (disconnect (disconnect demoConnected "conn-1").1 "conn-1").1 =
        (disconnect demoConnected "conn-1").1
    ∧ (∃ s1, lookupSession (disconnect demoConnected "conn-1").1 "conn-1" =
        some s1 ∧ s1.status = .Disconnected) :=
  ⟨(disconnect_idempotent_c5 demoConnected "conn-1"
      (demoSession .Connected) rfl).1,
   (disconnect_idempotent_c5 demoConnected "conn-1"
      (demoSession .Connected) rfl).2.1,
   (disconnect_idempotent_c5 demoConnected "conn-1"
      (demoSession .Connected) rfl).2.2.1,
   (disconnect_idempotent_c5 demoConnected "conn-1"
      (demoSession .Connected) rfl).2.2.2.1⟩

theorem trust_store_append_only_c6_witness :
    (trust [⟨"h1", 22, "f1"⟩] "h2" 2222 "f2")[0]? = some ⟨"h1", 22, "f1"⟩
    ∧ (trust [⟨"h1", 22, "f1"⟩] "h2" 2222 "f2")[1]? = some ⟨"h2", 2222, "f2"⟩
    ∧ (trust [⟨"h1", 22, "f1"⟩] "h2" 2222 "f2").length = 2
    ∧ (run demoWorld demoKnownHost
        [.trustOp "h3" 22 "f3", .disconnectOp "x",
         .connectOp demoParams none true "c7"]).trustStore[0]? =
      demoKnownHost.trustStore[0]? := by
  refine ⟨?_, ?_, ?_, ?_⟩
  · have h := (trust_store_append_only_c6.1 [⟨"h1", 22, "f1"⟩] "h2" 2222 "f2").1
      0 (by decide)
    rw [h]
    rfl
  · exact (trust_store_append_only_c6.1 [⟨"h1", 22, "f1"⟩] "h2" 2222 "f2").2.1
  · exact (trust_store_append_only_c6.1 [⟨"h1", 22, "f1"⟩] "h2" 2222 "f2").2.2
  · exact trust_store_append_only_c6.2 demoWorld
      [.trustOp "h3" 22 "f3", .disconnectOp "x",
       .connectOp demoParams none true "c7"]
      demoKnownHost 0 (by decide)

theorem execute_exit_status_c7_witness :
    (execute demoWorld demoConnected "conn-1" "false").2 =
      .ok ⟨"hello", "", 7⟩
    ∧ (execute demoFailWorld demoConnected "conn-1" "ls").2 =
      .error .TransportFailure :=
  ⟨(execute_exit_status_c7 demoWorld demoConnected "conn-1" "false"
      (demoSession .Connected) rfl rfl).1 ⟨"hello", "", 7⟩ rfl,
   (execute_exit_status_c7 demoFailWorld demoConnected "conn-1" "ls"
      (demoSession .Connected) rfl rfl).2.1 rfl⟩

end SSH
